import Mathlib

/-!
Verification of the gacha-record extraction tool (`snowbreak_gacha_export`).

This file gives a shallow embedding, in Lean 4, of the parts of the Rust
source that the specification's claims are about:

* the record data model and the record-reconciliation algorithm
  `merge_gacha_records` (`src/record.rs`);
* the row-classification pipeline: star-tier colour decoding, item-category
  resolution, and the truncate-at-first-failure row collection
  (`src/record.rs` and `src/record_image.rs`);
* the pagination control loop of `main` (`src/main.rs`), modelled as an
  explicit state machine over the sequence of observed page indices;
* the OCR dispatch engine (`src/ocr_server.rs`): the id-assigning client and
  the response-routing loop of `OcrServer2`, modelled as a transition system
  over an arbitrary interleaving of its two input message streams.

Machine integers (`u8`, `u32`, `u64`, `usize`) are embedded as `Nat`: the
embedded code only compares them and takes differences that are guarded to be
non-negative, so no wrap-around behaviour is observable.  Rust `Result` is
embedded as `Except`; `anyhow` error messages are carried as plain strings or
as dedicated error payloads (the formatted interpolations of the original
messages are irrelevant to control flow and are elided).
-/

namespace Snowbreak

/-- Item category of one gacha record; from `ItemType` in `src/record.rs`. -/
inductive ItemType where
  | Character
  | Weapon
deriving DecidableEq, Repr

/-- One gacha record; from `GachaRecord` in `src/record.rs`.
`star : u8` and `timestamp : u64` are embedded as `Nat` (they are only ever
compared, never subject to wrapping arithmetic). -/
structure GachaRecord where
  star : Nat
  item_name : String
  item_type : ItemType
  timestamp : Nat
deriving DecidableEq, Repr

/-- The timestamp of the first record of a sequence.
In `merge_gacha_records` the Rust source reads
`records.first().unwrap().timestamp`; the function is only applied to
non-empty sequences, so the `0` default for `[]` is never observable. -/
def first_timestamp : List GachaRecord → Nat
  | [] => 0
  | r :: _ => r.timestamp

/-- The `is_timestamp_desc` closure of `merge_gacha_records`
(`src/record.rs`): scans adjacent pairs and reports `false` as soon as some
record's timestamp strictly exceeds its predecessor's. -/
def is_timestamp_desc : List GachaRecord → Bool
  | [] => true
  | [_] => true
  | a :: b :: rest =>
    if b.timestamp > a.timestamp then false else is_timestamp_desc (b :: rest)

/-- The `same_num` computation of `merge_gacha_records` (`src/record.rs`):
`for i in (1..=min_len).rev() { if new[new_len - i..] == old[..i] { return i } }`,
`0` when no `i` matches.  The argument is the bound `min_len`, scanned
downward. -/
def overlap_len (new_records old_records : List GachaRecord) : Nat → Nat
  | 0 => 0
  | i + 1 =>
    if new_records.drop (new_records.length - (i + 1)) = old_records.take (i + 1) then
      i + 1
    else
      overlap_len new_records old_records i

/-- The single error `merge_gacha_records` can produce
(`anyhow!("Invalid merged records: {:?}", merged_records)`); the payload is
the offending assembled sequence. -/
inductive MergeErr where
  | invalidMergedRecords (records : List GachaRecord)
deriving DecidableEq, Repr

/-- `merge_gacha_records` from `src/record.rs` (lines 227-289).
Mirrors the source: empty-input shortcuts, the single recursive swap when the
first ("new") argument's newest timestamp is strictly earlier than the
second's, the downward overlap scan, the concatenation, and the final
descending-timestamp check. -/
def merge_gacha_records (new_records old_records : List GachaRecord) :
    Except MergeErr (List GachaRecord × Nat) :=
  if new_records.isEmpty then
    .ok (old_records, 0)
  else if old_records.isEmpty then
    .ok (new_records, new_records.length)
  else if _hswap : first_timestamp new_records < first_timestamp old_records then
    merge_gacha_records old_records new_records
  else
    let new_records_len := new_records.length
    let min_len := min new_records_len old_records.length
    let same_num := overlap_len new_records old_records min_len
    let merged_records := new_records.take (new_records_len - same_num) ++ old_records
    if is_timestamp_desc merged_records then
      .ok (merged_records, new_records_len - same_num)
    else
      .error (.invalidMergedRecords merged_records)
termination_by (if first_timestamp new_records < first_timestamp old_records then 1 else 0)
decreasing_by
  have hns := Nat.lt_asymm _hswap
  simp only [if_pos _hswap, if_neg hns]
  exact Nat.zero_lt_one

/-- The sequence assembled in the non-swap path of `merge_gacha_records`:
the new sequence's entries before its last `same_num` followed by the entire
old sequence. -/
def merge_body (n o : List GachaRecord) : List GachaRecord :=
  n.take (n.length - overlap_len n o (min n.length o.length)) ++ o

/-- The `add_num` count of the non-swap path of `merge_gacha_records`. -/
def merge_body_added (n o : List GachaRecord) : Nat :=
  n.length - overlap_len n o (min n.length o.length)

/-- The sequence `merge_gacha_records a b` assembles and then subjects to the
descending-timestamp check, after resolving its (at most one) argument
swap. -/
def assembled_records (a b : List GachaRecord) : List GachaRecord :=
  if first_timestamp a < first_timestamp b then merge_body b a else merge_body a b

/-- The added count `merge_gacha_records a b` reports on success, after
resolving its (at most one) argument swap. -/
def assembled_added (a b : List GachaRecord) : Nat :=
  if first_timestamp a < first_timestamp b then merge_body_added b a else merge_body_added a b

theorem merge_nonempty_noswap (a b : List GachaRecord) (ha : a ≠ []) (hb : b ≠ [])
    (h : ¬ first_timestamp a < first_timestamp b) :
    merge_gacha_records a b =
      if is_timestamp_desc (merge_body a b) then
        .ok (merge_body a b, merge_body_added a b)
      else
        .error (.invalidMergedRecords (merge_body a b)) := by
  match a, b with
  | x :: xs, y :: ys =>
    rw [merge_gacha_records, dif_neg h]
    simp [merge_body, merge_body_added]

theorem merge_nonempty_swap (a b : List GachaRecord) (ha : a ≠ []) (hb : b ≠ [])
    (h : first_timestamp a < first_timestamp b) :
    merge_gacha_records a b = merge_gacha_records b a := by
  match a, b with
  | x :: xs, y :: ys =>
    conv_lhs => rw [merge_gacha_records]
    rw [dif_pos h]
    simp

/-- `merge_gacha_records` on two non-empty inputs: assemble (after the swap)
and gate on the descending-timestamp check. -/
theorem merge_nonempty_eq (a b : List GachaRecord) (ha : a ≠ []) (hb : b ≠ []) :
    merge_gacha_records a b =
      if is_timestamp_desc (assembled_records a b) then
        .ok (assembled_records a b, assembled_added a b)
      else
        .error (.invalidMergedRecords (assembled_records a b)) := by
  by_cases h : first_timestamp a < first_timestamp b
  · rw [merge_nonempty_swap a b ha hb h,
      merge_nonempty_noswap b a hb ha (Nat.lt_asymm h)]
    simp [assembled_records, assembled_added, if_pos h]
  · rw [merge_nonempty_noswap a b ha hb h]
    simp [assembled_records, assembled_added, if_neg h]

/-- A concrete record with star 3 and Character type, for concrete test
inputs. -/
def sampleRecord (name : String) (ts : Nat) : GachaRecord :=
  ⟨3, name, ItemType.Character, ts⟩

/-- Modelled on the words of the specification (§4.4), for comparison with
the code's downward scan: the overlap length k is "the largest value, scanned
downward from min(len(new), len(old)) to 1, such that the last k entries of
the new sequence equal — by full field equality — the first k entries of the
old sequence; 0 if no such k exists". -/
def spec_overlap_len (n o : List GachaRecord) : Nat :=
  Nat.findGreatest (fun i => n.drop (n.length - i) = o.take i) (min n.length o.length)

/-- Modelled on the words of the specification (§4.4): whichever side's first
timestamp is strictly later is the "new" side.  When the first timestamps are
equal neither side is strictly later and the claim is silent; the first
argument is then kept as the "new" side, which is what the code's strict
comparison does. -/
def spec_new_old (a b : List GachaRecord) : List GachaRecord × List GachaRecord :=
  if first_timestamp b > first_timestamp a then (b, a) else (a, b)

/-- Modelled on the words of the specification (§4.4): "Result = (new
sequence's entries before its last k) followed by the entire old
sequence". -/
def spec_merged (a b : List GachaRecord) : List GachaRecord :=
  (spec_new_old a b).1.take
      ((spec_new_old a b).1.length - spec_overlap_len (spec_new_old a b).1 (spec_new_old a b).2)
    ++ (spec_new_old a b).2

/-- Modelled on the words of the specification (§4.4):
"added = length(new) − k". -/
def spec_added (a b : List GachaRecord) : Nat :=
  (spec_new_old a b).1.length - spec_overlap_len (spec_new_old a b).1 (spec_new_old a b).2

theorem overlap_len_eq_spec (n o : List GachaRecord) (m : Nat) :
    overlap_len n o m = Nat.findGreatest (fun i => n.drop (n.length - i) = o.take i) m := by
  induction m with
  | zero => rfl
  | succ i ih =>
    rw [overlap_len, Nat.findGreatest_succ]
    split
    · rfl
    · exact ih

theorem assembled_records_eq_spec (a b : List GachaRecord) :
    assembled_records a b = spec_merged a b ∧ assembled_added a b = spec_added a b := by
  unfold assembled_records assembled_added spec_merged spec_added spec_new_old
  by_cases h : first_timestamp a < first_timestamp b
  · simp [gt_iff_lt, if_pos h, merge_body, merge_body_added, overlap_len_eq_spec,
      spec_overlap_len]
  · simp [gt_iff_lt, if_neg h, merge_body, merge_body_added, overlap_len_eq_spec,
      spec_overlap_len]

/-- The "old" sequence of the spec's overlap example (§8): `[t5, t4, t3]`. -/
def c1_old : List GachaRecord :=
  [sampleRecord "e" 5, sampleRecord "d" 4, sampleRecord "c" 3]

/-- The "new" sequence of the spec's overlap example (§8):
`[t7, t6, t5, t4, t3]`. -/
def c1_new : List GachaRecord :=
  [sampleRecord "g" 7, sampleRecord "f" 6, sampleRecord "e" 5, sampleRecord "d" 4,
    sampleRecord "c" 3]

/-- **C1.** For non-empty inputs, every successful merge returns exactly the
sequence and count described by the specification: the side with the strictly
later first timestamp is the "new" side (first argument kept on ties, which
the claim leaves unspecified), k is the largest overlap found by the downward
scan, the result is new-before-its-last-k followed by the entire old side,
and added = len(new) − k.  In particular, for old = [t5,t4,t3] and
new = [t7,t6,t5,t4,t3] the result is [t7,t6,t5,t4,t3] with added = 2. -/
theorem merge_new_side_overlap_spec :
    (∀ a b r, a ≠ [] → b ≠ [] → merge_gacha_records a b = .ok r →
        r = (spec_merged a b, spec_added a b)) ∧
      merge_gacha_records c1_new c1_old = .ok (c1_new, 2) := by
  constructor
  · intro a b r ha hb h
    rw [merge_nonempty_eq a b ha hb] at h
    split at h
    · cases h
      exact Prod.ext_iff.mpr
        ⟨(assembled_records_eq_spec a b).1, (assembled_records_eq_spec a b).2⟩
    · cases h
  · simp [merge_gacha_records, c1_new, c1_old, first_timestamp, overlap_len,
      is_timestamp_desc, sampleRecord]

/-- Witness for **C1**: the general statement applied to the concrete overlap
example. -/
theorem merge_new_side_overlap_spec_witness :
    (c1_new, 2) = (spec_merged c1_new c1_old, spec_added c1_new c1_old) :=
  merge_new_side_overlap_spec.1 c1_new c1_old (c1_new, 2)
    (by simp [c1_new]) (by simp [c1_old]) merge_new_side_overlap_spec.2

theorem merge_nil_left (b : List GachaRecord) :
    merge_gacha_records [] b = .ok (b, 0) := by
  rw [merge_gacha_records]; simp

theorem merge_nil_right (a : List GachaRecord) :
    merge_gacha_records a [] = .ok (a, a.length) := by
  match a with
  | [] => rw [merge_gacha_records]; simp
  | x :: xs => rw [merge_gacha_records]; simp

/-- A concrete one-element record sequence for the C4 counterexample. -/
def c4_b : List GachaRecord := [sampleRecord "a" 5]

/-- **C4 counterexample.** `merge([], B)` for the one-record sequence
`B = c4_b` returns `(B, 0)`, not `(B, len(B)) = (B, 1)` as the claim
states: the empty-new shortcut reports an added count of 0, not the length
of the non-empty input. -/
theorem merge_empty_new_added_zero :
    merge_gacha_records [] c4_b = .ok (c4_b, 0) ∧
      merge_gacha_records [] c4_b ≠ .ok (c4_b, 1) := by
  constructor
  · rw [merge_gacha_records]; simp
  · rw [merge_gacha_records]; simp

/-- **C4 (amended).** `merge(A, [])` = `(A, len(A))` for every `A`, and
`merge([], B)` = `(B, 0)` for every `B`: when either input is empty the
result is the other input, but the added count is the length of the first
("new") argument — the length of the non-empty side only when that side is
the first argument, and 0 when the first argument is empty. -/
theorem merge_empty_cases :
    (∀ a, merge_gacha_records a [] = .ok (a, a.length)) ∧
      (∀ b, merge_gacha_records [] b = .ok (b, 0)) :=
  ⟨merge_nil_right, merge_nil_left⟩

/-- The proposition that some record of `l` has a strictly greater timestamp
than the record immediately before it. -/
def has_adjacent_increase (l : List GachaRecord) : Prop :=
  ∃ i, ∃ h : i + 1 < l.length, l[i].timestamp < l[i + 1].timestamp

theorem is_timestamp_desc_eq_false_iff (l : List GachaRecord) :
    is_timestamp_desc l = false ↔ has_adjacent_increase l := by
  induction l with
  | nil => simp [is_timestamp_desc, has_adjacent_increase]
  | cons a t ih =>
    match t with
    | [] => simp [is_timestamp_desc, has_adjacent_increase]
    | b :: rest =>
      rw [is_timestamp_desc]
      by_cases hab : b.timestamp > a.timestamp
      · simp only [if_pos hab]
        constructor
        · intro _
          exact ⟨0, by simp, hab⟩
        · intro _
          trivial
      · rw [if_neg hab, ih]
        constructor
        · rintro ⟨i, h, hlt⟩
          exact ⟨i + 1, by simpa using h, by simpa using hlt⟩
        · rintro ⟨i, h, hlt⟩
          match i with
          | 0 => exact absurd (by simpa using hlt) hab
          | j + 1 => exact ⟨j, by simpa using h, by simpa using hlt⟩

/-- A list whose timestamps strictly increase, violating the
`RecordSequence` ordering invariant. -/
def c3_bad : List GachaRecord := [sampleRecord "a" 1, sampleRecord "b" 2]

/-- **C3 counterexample.** `merge([], c3_bad)` succeeds and returns `c3_bad`
itself even though `c3_bad` violates the non-increasing-timestamp invariant:
the empty-input shortcut skips the post-condition check, so "whenever merge
succeeds the returned sequence satisfies the non-increasing-timestamp
ordering invariant" is false as stated for inputs that themselves violate
the invariant. -/
theorem merge_succeeds_on_unsorted_old :
    merge_gacha_records [] c3_bad = .ok (c3_bad, 0) ∧
      is_timestamp_desc c3_bad = false := by
  constructor
  · rw [merge_gacha_records]; simp
  · rfl

/-- **C3 (amended).** For inputs that satisfy the `RecordSequence` ordering
invariant (as the spec's data-model section requires of every stored and
scanned sequence): if the sequence assembled from two non-empty inputs is
not non-increasing in timestamp, the merge returns the order-violation error
rather than a repaired sequence, and whenever the merge succeeds the
returned sequence is non-increasing.  (The inputs are borrowed immutably in
the source and the embedding is pure, so a failed merge cannot modify
them.) -/
theorem merge_order_violation_rejected :
    ∀ a b : List GachaRecord,
      (a ≠ [] → b ≠ [] → is_timestamp_desc (assembled_records a b) = false →
        merge_gacha_records a b = .error (.invalidMergedRecords (assembled_records a b))) ∧
      (is_timestamp_desc a = true → is_timestamp_desc b = true →
        ∀ r n, merge_gacha_records a b = .ok (r, n) → is_timestamp_desc r = true) := by
  intro a b
  constructor
  · intro ha hb hdesc
    rw [merge_nonempty_eq a b ha hb, if_neg (by simp [hdesc])]
  · intro hdesca hdescb r n h
    match a, b with
    | [], b =>
      rw [merge_nil_left] at h
      cases h
      exact hdescb
    | x :: xs, [] =>
      rw [merge_nil_right] at h
      cases h
      exact hdesca
    | x :: xs, y :: ys =>
      rw [merge_nonempty_eq (x :: xs) (y :: ys) (List.cons_ne_nil x xs)
        (List.cons_ne_nil y ys)] at h
      split at h
      · cases h
        assumption
      · cases h

/-- Witness for **C3 (amended)**: a non-empty pair whose assembled sequence
interleaves timestamps is rejected, and a successful concrete merge returns
a non-increasing sequence. -/
theorem merge_order_violation_rejected_witness :
    merge_gacha_records [sampleRecord "x" 3, sampleRecord "w" 1] [sampleRecord "y" 2] =
        .error (.invalidMergedRecords
          (assembled_records [sampleRecord "x" 3, sampleRecord "w" 1] [sampleRecord "y" 2])) ∧
      is_timestamp_desc [sampleRecord "x" 5, sampleRecord "y" 4] = true :=
  ⟨(merge_order_violation_rejected [sampleRecord "x" 3, sampleRecord "w" 1]
      [sampleRecord "y" 2]).1 (List.cons_ne_nil _ _) (List.cons_ne_nil _ _)
      (by simp [assembled_records, first_timestamp, merge_body, overlap_len,
        is_timestamp_desc, sampleRecord]),
    (merge_order_violation_rejected [sampleRecord "x" 5] [sampleRecord "y" 4]).2
      (by rfl) (by rfl) [sampleRecord "x" 5, sampleRecord "y" 4] 1
      (by simp [merge_gacha_records, first_timestamp, overlap_len,
        is_timestamp_desc, sampleRecord])⟩

/-- **C10.** For two non-empty inputs, `merge_gacha_records` fails (with its
order-violation error) exactly when some record of the assembled sequence
has a strictly greater timestamp than the record immediately before it;
adjacent records with equal timestamps are accepted, as the concrete merge
of two distinct records with the same timestamp shows. -/
theorem merge_error_iff_adjacent_increase :
    (∀ a b : List GachaRecord, a ≠ [] → b ≠ [] →
        ((∃ e, merge_gacha_records a b = .error e) ↔
          has_adjacent_increase (assembled_records a b))) ∧
      merge_gacha_records [sampleRecord "x" 5] [sampleRecord "y" 5] =
        .ok ([sampleRecord "x" 5, sampleRecord "y" 5], 1) := by
  constructor
  · intro a b ha hb
    rw [merge_nonempty_eq a b ha hb, ← is_timestamp_desc_eq_false_iff]
    by_cases hdesc : is_timestamp_desc (assembled_records a b)
    · rw [if_pos hdesc]
      simp [hdesc]
    · rw [if_neg hdesc]
      simp only [Bool.not_eq_true] at hdesc
      simp [hdesc]
  · simp [merge_gacha_records, first_timestamp, overlap_len, is_timestamp_desc,
      sampleRecord]

/-- Witness for **C10**: the characterization applied to a concrete rejected
pair. -/
theorem merge_error_iff_adjacent_increase_witness :
    (∃ e, merge_gacha_records [sampleRecord "x" 3, sampleRecord "w" 1]
        [sampleRecord "y" 2] = .error e) ↔
      has_adjacent_increase (assembled_records
        [sampleRecord "x" 3, sampleRecord "w" 1] [sampleRecord "y" 2]) :=
  merge_error_iff_adjacent_increase.1 _ _ (List.cons_ne_nil _ _) (List.cons_ne_nil _ _)

/-- **C5 counterexample.** When both sequences are non-empty, share the same
first (newest) timestamp, and have no overlap, no swap happens and the first
argument is kept as the "new" side, so the merged contents differ between
`merge(A,B)` and `merge(B,A)`: with `A = [x@5]` and `B = [y@5]` the merge
succeeds in both orders but returns `[x, y]` one way and `[y, x]` the
other. -/
theorem merge_content_depends_on_argument_order :
    merge_gacha_records [sampleRecord "x" 5] [sampleRecord "y" 5] =
        .ok ([sampleRecord "x" 5, sampleRecord "y" 5], 1) ∧
      merge_gacha_records [sampleRecord "y" 5] [sampleRecord "x" 5] =
        .ok ([sampleRecord "y" 5, sampleRecord "x" 5], 1) ∧
      [sampleRecord "x" 5, sampleRecord "y" 5] ≠
        [sampleRecord "y" 5, sampleRecord "x" 5] := by
  refine ⟨?_, ?_, by decide⟩ <;>
    simp [merge_gacha_records, first_timestamp, overlap_len, is_timestamp_desc,
      sampleRecord]

/-- **C5 (amended).** Whenever the two non-empty inputs have distinct first
timestamps, `merge(A,B)` and `merge(B,A)` are literally equal (same success
or failure, same sequence, same added count); and when either input is
empty, the merged sequence content is the same in both argument orders
(though the added counts differ, per C4). -/
theorem merge_symmetric_on_distinct_first_timestamps :
    (∀ a b : List GachaRecord, a ≠ [] → b ≠ [] →
        first_timestamp a ≠ first_timestamp b →
        merge_gacha_records a b = merge_gacha_records b a) ∧
      ∀ a, (merge_gacha_records a []).map Prod.fst =
        (merge_gacha_records [] a).map Prod.fst := by
  constructor
  · intro a b ha hb hne
    rcases Nat.lt_trichotomy (first_timestamp a) (first_timestamp b) with h | h | h
    · exact merge_nonempty_swap a b ha hb h
    · exact absurd h hne
    · exact (merge_nonempty_swap b a hb ha h).symm
  · intro a
    rw [merge_nil_left, merge_nil_right]
    rfl

/-- Witness for **C5 (amended)**: the symmetry applied to two concrete
sequences with distinct first timestamps. -/
theorem merge_symmetric_on_distinct_first_timestamps_witness :
    merge_gacha_records [sampleRecord "x" 5] [sampleRecord "y" 3] =
      merge_gacha_records [sampleRecord "y" 3] [sampleRecord "x" 5] :=
  merge_symmetric_on_distinct_first_timestamps.1 _ _ (List.cons_ne_nil _ _)
    (List.cons_ne_nil _ _) (by decide)

/-! ## Screen classifier: star-tier decode, category resolution, row
collection (`src/record.rs`, `src/record_image.rs`) -/

/-- An RGB colour sample; components are `u8` channel values. -/
abbrev RGB := Nat × Nat × Nat

/-- Squared Euclidean RGB distance, over `Int`.
`RecordImage::stars` (src/record_image.rs) compares
`sqrt((Δr)² + (Δg)² + (Δb)²) < tol` on `f32`; channel differences are at
most 255, so every square and their sum (≤ 195075 < 2²⁴) is exactly
representable in `f32`, and since `f32` square root is correctly rounded and
monotone with `sqrt(tol²) = tol` exact, the float comparison holds exactly
when the integer comparison `dist² < tol²` does. -/
def rgb_dist2 (c1 c2 : RGB) : Int :=
  ((c1.1 : Int) - (c2.1 : Int)) ^ 2 + ((c1.2.1 : Int) - (c2.2.1 : Int)) ^ 2 +
    ((c1.2.2 : Int) - (c2.2.2 : Int)) ^ 2

/-- `STAR_3_RGB` (both sources use the same reference colours). -/
def STAR_3_RGB : RGB := (55, 98, 242)

/-- `STAR_4_RGB`. -/
def STAR_4_RGB : RGB := (192, 105, 214)

/-- `STAR_5_RGB`. -/
def STAR_5_RGB : RGB := (233, 155, 55)

/-- `rgb_to_star` from `RecordImage::stars` (src/record_image.rs): classify a
sampled colour against the three reference colours by Euclidean distance with
the fixed tolerance `ACCURACY = 5.0`, compared here in the exactly-equivalent
squared form `< 25`. -/
def rgb_to_star (rgb : RGB) : Except String Nat :=
  if rgb_dist2 rgb STAR_3_RGB < 25 then .ok 3
  else if rgb_dist2 rgb STAR_4_RGB < 25 then .ok 4
  else if rgb_dist2 rgb STAR_5_RGB < 25 then .ok 5
  else .error "Unknown star RGB"

/-- `OneRecordImage::star` (src/record.rs, lines 134-149): the compiled
pipeline's variant classifies the sampled colour by exact equality against
the same three reference colours — the degenerate tolerance (on integer
channels, distance < 1 is exact equality). -/
def star_rs (star_color : RGB) : Except String Nat :=
  if star_color = STAR_3_RGB then .ok 3
  else if star_color = STAR_4_RGB then .ok 4
  else if star_color = STAR_5_RGB then .ok 5
  else .error "Invalid color"

/-- `STAR_X` (src/record_image.rs). -/
def STAR_X : Nat := 352

/-- `RECORD_Y0S` (src/record_image.rs):
`round((RECORD_HEIGHT + SPACE_HEIGHT) · i) + _FIRST_RECORD_Y0` with
`RECORD_HEIGHT = 32`, `SPACE_HEIGHT = 319/9`, `_FIRST_RECORD_Y0 = 207`.
The real value `607·i/9` is never a half-integer, so the `f32` rounding in
the source agrees with exact rational rounding, computed here as
`(1214·i + 9) / 18` (floor of `607·i/9 + 1/2`). -/
def RECORD_Y0S : List Nat := (List.range 10).map (fun i => (1214 * i + 9) / 18 + 207)

/-- `STAR_YS` (src/record_image.rs): `y0 + (RECORD_HEIGHT + 1) / 2`. -/
def STAR_YS : List Nat := RECORD_Y0S.map (fun y0 => y0 + (32 + 1) / 2)

/-- The `map_while` loop of `RecordImage::stars`: classify each sampled row
pixel in turn, ending the enumeration at the first failure. -/
def stars_aux (px : Nat → Nat → RGB) : List Nat → List Nat
  | [] => []
  | y :: ys =>
    match rgb_to_star (px STAR_X y) with
    | .ok s => s :: stars_aux px ys
    | .error _ => []

/-- `RecordImage::stars` (src/record_image.rs, lines 77-113), with the page
image abstracted as a pixel function: sample the one fixed pixel
`(STAR_X, STAR_YS[i])` per row position and classify it, stopping at the
first row whose colour matches no reference colour. -/
def stars (px : Nat → Nat → RGB) : List Nat := stars_aux px STAR_YS

theorem rgb_dist2_lt_one_iff (c1 c2 : RGB) : rgb_dist2 c1 c2 < 1 ↔ c1 = c2 := by
  obtain ⟨r1, g1, b1⟩ := c1
  obtain ⟨r2, g2, b2⟩ := c2
  unfold rgb_dist2
  simp only [Prod.mk.injEq]
  constructor
  · intro h
    have h1 := sq_nonneg ((r1 : Int) - r2)
    have h2 := sq_nonneg ((g1 : Int) - g2)
    have h3 := sq_nonneg ((b1 : Int) - b2)
    have e1 : ((r1 : Int) - r2) ^ 2 = 0 := by linarith
    have e2 : ((g1 : Int) - g2) ^ 2 = 0 := by linarith
    have e3 : ((b1 : Int) - b2) ^ 2 = 0 := by linarith
    refine ⟨?_, ?_, ?_⟩
    · exact Nat.cast_inj.mp (sub_eq_zero.mp (pow_eq_zero_iff two_ne_zero |>.mp e1))
    · exact Nat.cast_inj.mp (sub_eq_zero.mp (pow_eq_zero_iff two_ne_zero |>.mp e2))
    · exact Nat.cast_inj.mp (sub_eq_zero.mp (pow_eq_zero_iff two_ne_zero |>.mp e3))
  · rintro ⟨rfl, rfl, rfl⟩
    simp

theorem stars_aux_all_ok (px : Nat → Nat → RGB) (ys : List Nat)
    (h : ∀ y ∈ ys, (rgb_to_star (px STAR_X y)).isOk = true) :
    stars_aux px ys = ys.filterMap (fun y => (rgb_to_star (px STAR_X y)).toOption) := by
  induction ys with
  | nil => rfl
  | cons y ys ih =>
    have hy := h y (by simp)
    cases hrs : rgb_to_star (px STAR_X y) with
    | ok s =>
      simp [stars_aux, hrs, Except.toOption, ih (fun y hy => h y (by simp [hy]))]
    | error e => rw [hrs] at hy; simp [Except.isOk, Except.toBool] at hy

theorem stars_aux_stops (px : Nat → Nat → RGB) (ys : List Nat) (z : Nat) (zs : List Nat)
    (h : ∀ y ∈ ys, (rgb_to_star (px STAR_X y)).isOk = true)
    (hz : (rgb_to_star (px STAR_X z)).isOk = false) :
    stars_aux px (ys ++ z :: zs) =
      ys.filterMap (fun y => (rgb_to_star (px STAR_X y)).toOption) := by
  induction ys with
  | nil =>
    cases hrs : rgb_to_star (px STAR_X z) with
    | ok s => rw [hrs] at hz; simp [Except.isOk, Except.toBool] at hz
    | error e => simp [stars_aux, hrs]
  | cons y ys ih =>
    have hy := h y (by simp)
    cases hrs : rgb_to_star (px STAR_X y) with
    | ok s =>
      simp [stars_aux, hrs, List.filterMap_cons, Except.toOption,
        ih (fun y hy => h y (by simp [hy]))]
    | error e => rw [hrs] at hy; simp [Except.isOk, Except.toBool] at hy

/-- **C7.** Star-tier decode: `rgb_to_star` (the classifier of
`RecordImage::stars`, src/record_image.rs) accepts a sampled colour exactly
when its Euclidean distance to one of the three reference colours is below
the fixed tolerance 5 (squared form `< 25`), returning the tier of the first
reference within tolerance, and fails exactly when no reference is within
tolerance; the compiled pipeline's `OneRecordImage::star` (src/record.rs)
uses the degenerate tolerance — exact equality, i.e. distance `< 1` on
integer channels; and row enumeration over the ten fixed sample pixels
`(STAR_X, STAR_YS[i])` ends at the first row whose colour matches no
reference, keeping exactly the earlier rows' tiers. -/
theorem star_tier_decode_by_distance :
    (∀ c : RGB,
        (rgb_to_star c = .ok 3 ↔ rgb_dist2 c STAR_3_RGB < 25) ∧
        (rgb_to_star c = .ok 4 ↔
          25 ≤ rgb_dist2 c STAR_3_RGB ∧ rgb_dist2 c STAR_4_RGB < 25) ∧
        (rgb_to_star c = .ok 5 ↔
          25 ≤ rgb_dist2 c STAR_3_RGB ∧ 25 ≤ rgb_dist2 c STAR_4_RGB ∧
            rgb_dist2 c STAR_5_RGB < 25) ∧
        ((∃ e, rgb_to_star c = .error e) ↔
          25 ≤ rgb_dist2 c STAR_3_RGB ∧ 25 ≤ rgb_dist2 c STAR_4_RGB ∧
            25 ≤ rgb_dist2 c STAR_5_RGB)) ∧
      (∀ c : RGB,
        (star_rs c = .ok 3 ↔ rgb_dist2 c STAR_3_RGB < 1) ∧
        (star_rs c = .ok 4 ↔
          ¬ rgb_dist2 c STAR_3_RGB < 1 ∧ rgb_dist2 c STAR_4_RGB < 1) ∧
        (star_rs c = .ok 5 ↔
          ¬ rgb_dist2 c STAR_3_RGB < 1 ∧ ¬ rgb_dist2 c STAR_4_RGB < 1 ∧
            rgb_dist2 c STAR_5_RGB < 1) ∧
        ((∃ e, star_rs c = .error e) ↔
          ¬ rgb_dist2 c STAR_3_RGB < 1 ∧ ¬ rgb_dist2 c STAR_4_RGB < 1 ∧
            ¬ rgb_dist2 c STAR_5_RGB < 1)) ∧
      (∀ (px : Nat → Nat → RGB) (ys : List Nat) (z : Nat) (zs : List Nat),
        STAR_YS = ys ++ z :: zs →
        (∀ y ∈ ys, (rgb_to_star (px STAR_X y)).isOk = true) →
        (rgb_to_star (px STAR_X z)).isOk = false →
        stars px = ys.filterMap (fun y => (rgb_to_star (px STAR_X y)).toOption)) ∧
      (∀ px : Nat → Nat → RGB,
        (∀ y ∈ STAR_YS, (rgb_to_star (px STAR_X y)).isOk = true) →
        stars px = STAR_YS.filterMap (fun y => (rgb_to_star (px STAR_X y)).toOption)) := by
  refine ⟨?_, ?_, ?_, ?_⟩
  · intro c
    unfold rgb_to_star
    split_ifs with h1 h2 h3 <;> (try simp) <;> omega
  · intro c
    unfold star_rs
    split_ifs with h1 h2 h3 <;> simp_all [rgb_dist2_lt_one_iff]
  · intro px ys z zs hsplit h hz
    rw [stars, hsplit]
    exact stars_aux_stops px ys z zs h hz
  · intro px h
    exact stars_aux_all_ok px STAR_YS h

/-- Witness for **C7**: a page whose first sampled row pixel is black
(matching no reference colour) enumerates zero rows; the reference colour
itself classifies as its tier. -/
theorem star_tier_decode_by_distance_witness :
    stars (fun _ _ => ((0 : Nat), (0 : Nat), (0 : Nat))) = [] ∧
      rgb_to_star (55, 98, 242) = .ok 3 := by
  constructor
  · exact star_tier_decode_by_distance.2.2.1 (fun _ _ => (0, 0, 0)) [] 223
      [290, 358, 425, 493, 560, 628, 695, 763, 830] (by decide)
      (by intro y hy; simp at hy) (by decide)
  · exact (star_tier_decode_by_distance.1 (55, 98, 242)).1.mpr (by decide)

/-- `OneRecordImage::gacha_record` (src/record.rs, lines 206-220), with the
OCR-decoded fields abstracted as their outcomes: the star tier from the
sampled pixel colour (`self.star()?`), then the item name, item type and
timestamp in order, failing on the first failing field. -/
def gacha_record_of (color : RGB) (item_name : Except String String)
    (item_type : Except String ItemType) (timestamp : Except String Nat) :
    Except String GachaRecord := do
  let star ← star_rs color
  let name ← item_name
  let ty ← item_type
  let ts ← timestamp
  pure ⟨star, name, ty, ts⟩

/-- `Iterator::collect::<Result<Vec<GachaRecord>>>`: collect a sequence of
results into one result, stopping at the first error. -/
def collect_results : List (Except String GachaRecord) → Except String (List GachaRecord)
  | [] => .ok []
  | r :: rs => do
    let v ← r
    let vs ← collect_results rs
    pure (v :: vs)

/-- `RecordScreen::gacha_records` (src/record.rs, lines 352-365), with the
ten per-row decode outcomes abstracted: the outer `Except` is each spawned
row task's join result, the inner one the row's own decode result.  The
source takes results while the join succeeded, unwraps them (modelled by
`filterMap Except.toOption`, equal to unwrapping on the all-ok prefix),
takes rows while the decode succeeded, and collects into
`Result<Vec<GachaRecord>>`. -/
def gacha_records_of (results : List (Except String (Except String GachaRecord))) :
    Except String (List GachaRecord) :=
  collect_results
    (((results.takeWhile Except.isOk).filterMap Except.toOption).takeWhile Except.isOk)

theorem collect_results_cons_ok (r : GachaRecord) (l : List (Except String GachaRecord)) :
    collect_results (Except.ok r :: l) = (collect_results l).map (fun vs => r :: vs) := by
  cases h : collect_results l <;> rw [collect_results, h] <;> rfl

theorem gacha_records_of_cons_ok (r : GachaRecord)
    (rest : List (Except String (Except String GachaRecord))) :
    gacha_records_of (Except.ok (Except.ok r) :: rest) =
      (gacha_records_of rest).map (fun l => r :: l) := by
  unfold gacha_records_of
  rw [List.takeWhile_cons]
  simp [Except.isOk, Except.toBool, Except.toOption, collect_results_cons_ok]

theorem gacha_records_of_cons_err (e : String)
    (rest : List (Except String (Except String GachaRecord))) :
    gacha_records_of (Except.ok (Except.error e) :: rest) = .ok [] := by
  unfold gacha_records_of
  rw [List.takeWhile_cons]
  simp [Except.isOk, Except.toBool, Except.toOption, collect_results]

/-- **C6.** A field-level decode failure at row i truncates the page's
accepted rows at row i, as a success: with the first i row tasks decoding
successfully to `good` and row i failing, classification returns exactly
`good`, whatever the later rows hold (dropped, not retried); a page whose
every row decodes yields all rows; and a row whose star-tier colour matches
no reference fails the row, so a valid listing page whose first row fails
star matching yields `ok []` — an empty row list, not an error. -/
theorem classification_truncates_at_failure :
    (∀ (good : List GachaRecord) (e : String)
        (rest : List (Except String (Except String GachaRecord))),
      gacha_records_of ((good.map fun r => Except.ok (Except.ok r)) ++
          Except.ok (Except.error e) :: rest) = .ok good) ∧
      (∀ good : List GachaRecord,
        gacha_records_of (good.map fun r => Except.ok (Except.ok r)) = .ok good) ∧
      (∀ (color : RGB) (e : String), star_rs color = .error e →
        ∀ (nm : Except String String) (ty : Except String ItemType)
          (ts : Except String Nat)
          (rest : List (Except String (Except String GachaRecord))),
          gacha_records_of (Except.ok (gacha_record_of color nm ty ts) :: rest) =
            .ok []) := by
  refine ⟨?_, ?_, ?_⟩
  · intro good e rest
    induction good with
    | nil => simpa using gacha_records_of_cons_err e rest
    | cons r rs ih => simp [gacha_records_of_cons_ok, ih, Except.map]
  · intro good
    induction good with
    | nil => rfl
    | cons r rs ih => simp [gacha_records_of_cons_ok, ih, Except.map]
  · intro color e hstar nm ty ts rest
    have hrec : gacha_record_of color nm ty ts = .error e := by
      rw [gacha_record_of, hstar]
      rfl
    rw [hrec]
    exact gacha_records_of_cons_err e rest

/-- Witness for **C6**: a page whose first row samples a black star pixel
(no reference colour matches) classifies to zero rows as a success, and a
one-failure page keeps exactly the rows before the failure. -/
theorem classification_truncates_at_failure_witness :
    gacha_records_of [Except.ok (gacha_record_of (0, 0, 0) (.ok "n")
        (.ok ItemType.Character) (.ok 5))] = .ok [] ∧
      gacha_records_of [Except.ok (Except.ok (sampleRecord "a" 9)),
        Except.ok (Except.error "parse"), Except.ok (Except.ok (sampleRecord "b" 8))] =
        .ok [sampleRecord "a" 9] :=
  ⟨classification_truncates_at_failure.2.2 (0, 0, 0) "Invalid color" (by rfl)
      (.ok "n") (.ok ItemType.Character) (.ok 5) [],
    classification_truncates_at_failure.1 [sampleRecord "a" 9] "parse"
      [Except.ok (Except.ok (sampleRecord "b" 8))]⟩

/-- `Language` from src/language.rs: the supported display languages. -/
inductive Language where
  | ChineseSimplified
  | English
deriving DecidableEq, Repr

/-- Modelled from the spec:
`ItemType::display_names_in_record_page_in_game_in_all_languages`, called by
`RecordImage::item_type` (src/record_image.rs line 213) but defined nowhere
under src/.  Per the spec (§4.2) category resolution is an "exact match of
recognized text against the known localized label set for every supported
display language": the supported display languages are those of
src/language.rs (simplified Chinese and English), the Chinese labels are the
ones `OneRecordImage::item_type` (src/record.rs) matches, and the English
labels are the spec's category names. -/
def display_names_in_record_page_in_game_in_all_languages : ItemType → List String
  | .Character => ["角色", "Character"]
  | .Weapon => ["武器", "Weapon"]

/-- `enum_iterator::all::<ItemType>()`: the item types in declaration
order. -/
def allItemTypes : List ItemType := [ItemType.Character, ItemType.Weapon]

/-- `RecordImage::item_type` (src/record_image.rs, lines 209-217): the first
item type whose localized label set contains the recognized text; a
field-level decode failure if none does. -/
def item_type_ri (item_type_str : String) : Except String ItemType :=
  match allItemTypes.find? (fun item =>
      (display_names_in_record_page_in_game_in_all_languages item).contains
        item_type_str) with
  | some t => .ok t
  | none => .error ("Unknown item type: " ++ item_type_str)

/-- `OneRecordImage::item_type` (src/record.rs, lines 170-180), the matching
of the recognized text: the compiled pipeline recognises the two Chinese
labels only. -/
def item_type_rs (item_type_str : String) : Except String ItemType :=
  if item_type_str = "角色" then .ok ItemType.Character
  else if item_type_str = "武器" then .ok ItemType.Weapon
  else .error ("Invalid item type: " ++ item_type_str)

/-- **C8.** Category resolution (`RecordImage::item_type`, with the
spec-modelled label sets) succeeds exactly when the recognized text equals
one of the localized labels of some supported display language, and then
returns the category owning that label; text matching no label of any
language is a decode failure.  The compiled pipeline's
`OneRecordImage::item_type` is the restriction to the Chinese labels. -/
theorem category_resolution_exact_match :
    (∀ (s : String) (t : ItemType),
        item_type_ri s = .ok t ↔
          s ∈ display_names_in_record_page_in_game_in_all_languages t) ∧
      (∀ s : String, (∃ e, item_type_ri s = .error e) ↔
        ∀ t, s ∉ display_names_in_record_page_in_game_in_all_languages t) ∧
      (∀ (s : String) (t : ItemType),
        item_type_rs s = .ok t ↔
          (t = ItemType.Character ∧ s = "角色") ∨
            (t = ItemType.Weapon ∧ s = "武器")) := by
  refine ⟨?_, ?_, ?_⟩
  · intro s t
    cases t <;>
      simp [item_type_ri, allItemTypes, List.find?,
        display_names_in_record_page_in_game_in_all_languages] <;>
      by_cases h1 : s = "角色" <;> by_cases h2 : s = "Character" <;>
      by_cases h3 : s = "武器" <;> by_cases h4 : s = "Weapon" <;>
      simp_all
  · intro s
    by_cases h1 : s = "角色"
    · subst h1
      simp [item_type_ri, allItemTypes, List.find?,
        display_names_in_record_page_in_game_in_all_languages]
      exact ⟨ItemType.Character, by simp⟩
    · by_cases h2 : s = "Character"
      · subst h2
        simp [item_type_ri, allItemTypes, List.find?,
          display_names_in_record_page_in_game_in_all_languages]
        exact ⟨ItemType.Character, by simp⟩
      · by_cases h3 : s = "武器"
        · subst h3
          simp [item_type_ri, allItemTypes, List.find?,
            display_names_in_record_page_in_game_in_all_languages]
          exact ⟨ItemType.Weapon, by simp⟩
        · by_cases h4 : s = "Weapon"
          · subst h4
            simp [item_type_ri, allItemTypes, List.find?,
              display_names_in_record_page_in_game_in_all_languages]
            exact ⟨ItemType.Weapon, by simp⟩
          · simp [item_type_ri, allItemTypes, List.find?, h1, h2, h3, h4,
              display_names_in_record_page_in_game_in_all_languages]
            intro t
            cases t <;> simp [h1, h2, h3, h4]
  · intro s t
    unfold item_type_rs
    split_ifs with h1 h2 <;> cases t <;> simp_all

/-- Witness for **C8**: both localized Character labels resolve to
`Character`, and unrecognized text is a decode failure. -/
theorem category_resolution_exact_match_witness :
    (item_type_ri "Character" = .ok ItemType.Character ↔
        "Character" ∈ display_names_in_record_page_in_game_in_all_languages
          ItemType.Character) ∧
      (item_type_rs "角色" = .ok ItemType.Character ↔
        (ItemType.Character = ItemType.Character ∧ "角色" = "角色") ∨
          (ItemType.Character = ItemType.Weapon ∧ "角色" = "武器")) :=
  ⟨category_resolution_exact_match.1 "Character" ItemType.Character,
    category_resolution_exact_match.2.2 "角色" ItemType.Character⟩

/-! ## Pagination controller (`src/main.rs`, lines 180-242) -/

/-- One observation made by the pagination loop of `main`: the page index
decoded from a fresh capture (`record_screen.index().await`), a decode
failure, or the expiry of the 1-second poll window of the advancing loop
(`start.elapsed().as_secs_f32() > 1.0`). -/
inductive PagObs where
  | seen (index : Nat)
  | decodeFailed
  | timeout
deriving DecidableEq, Repr

/-- The control state of `main`'s pagination loop: the initial
capture-and-classify (lines 181-221), the back-to-first-page click loop with
its click counter (lines 192-210), the next-page loop carrying the accepted
pages' indices (`record_screens`, modelled by each accepted page's decoded
index; lines 224-242), and the two terminal outcomes.  `failed` covers both
the graceful early returns and the `unwrap()` panics on a decode failure
inside the loops — either way the run ends without yielding pages. -/
inductive PagState where
  | locating
  | rewinding (click_time : Nat)
  | advancing (pages : List Nat)
  | done (pages : List Nat)
  | failed
deriving DecidableEq, Repr

/-- One transition of `main`'s pagination control flow.
Locating: index 1 accepts the page and starts advancing; any other index
starts the rewinding click loop; a decode failure aborts.  Rewinding: each
observation follows one more click (`click_time += 1`); index 1 accepts the
page (the first accepted page therefore has index 1); otherwise the run
aborts once `click_time > 20`.  Advancing: an observed index equal to
(pages accepted so far) + 1 accepts the page; any other index is ignored
and polling continues; the poll timeout ends the scan, yielding the pages.
`timeout` cannot occur outside advancing (no timer runs there); those
transitions are mapped to `failed` and are unreachable. -/
def pag_step : PagState → PagObs → PagState
  | .locating, .seen i => if i = 1 then .advancing [1] else .rewinding 0
  | .locating, .decodeFailed => .failed
  | .locating, .timeout => .failed
  | .rewinding ct, .seen i =>
    if i = 1 then .advancing [1]
    else if ct + 1 > 20 then .failed
    else .rewinding (ct + 1)
  | .rewinding _, .decodeFailed => .failed
  | .rewinding _, .timeout => .failed
  | .advancing pages, .seen i =>
    if i = pages.length + 1 then .advancing (pages ++ [i]) else .advancing pages
  | .advancing _, .decodeFailed => .failed
  | .advancing pages, .timeout => .done pages
  | .done pages, _ => .done pages
  | .failed, _ => .failed

/-- A full run of the pagination controller over a sequence of
observations, from the initial state. -/
def pag_run (obs : List PagObs) : PagState :=
  obs.foldl pag_step PagState.locating

/-- The inductive invariant: the accepted pages' indices are exactly
`1, 2, …, N` in order. -/
def pag_inv : PagState → Prop
  | .advancing pages => pages = List.range' 1 pages.length
  | .done pages => pages = List.range' 1 pages.length
  | _ => True

theorem pag_step_preserves_inv (s : PagState) (o : PagObs) (h : pag_inv s) :
    pag_inv (pag_step s o) := by
  cases s with
  | locating =>
    cases o with
    | seen i =>
      by_cases hi : i = 1 <;> simp [pag_step, hi, pag_inv, List.range']
    | decodeFailed => trivial
    | timeout => trivial
  | rewinding ct =>
    cases o with
    | seen i =>
      by_cases hi : i = 1
      · simp [pag_step, hi, pag_inv, List.range']
      · by_cases hct : ct + 1 > 20 <;> simp [pag_step, hi, hct, pag_inv]
    | decodeFailed => trivial
    | timeout => trivial
  | advancing pages =>
    cases o with
    | seen i =>
      by_cases hi : i = pages.length + 1
      · simp only [pag_step, if_pos hi, pag_inv] at h ⊢
        subst hi
        conv_lhs => rw [h]
        rw [List.length_append, List.length_singleton, List.range'_concat]
        simp [← h, Nat.add_comm]
      · simp only [pag_step, if_neg hi, pag_inv] at h ⊢
        exact h
    | decodeFailed => trivial
    | timeout => exact h
  | done pages => cases o <;> exact h
  | failed => cases o <;> trivial

theorem pag_run_inv (obs : List PagObs) : pag_inv (pag_run obs) := by
  suffices hgen : ∀ s, pag_inv s → pag_inv (obs.foldl pag_step s) from
    hgen PagState.locating trivial
  induction obs with
  | nil => exact fun s h => h
  | cons o os ih => exact fun s h => ih (pag_step s o) (pag_step_preserves_inv s o h)

/-- **C9.** During advancing, a freshly observed page index is accepted (the
page list grows) exactly when it equals the count of pages accepted so far
plus 1; the first accepted page — from locating directly or at the end of
rewinding — has index 1; consequently every run that reaches `done` with N
accepted pages carries exactly the indices 1..N, contiguous and in order. -/
theorem pagination_accepts_contiguous_indices :
    (∀ (pages : List Nat) (i : Nat),
        pag_step (PagState.advancing pages) (PagObs.seen i) =
            PagState.advancing (pages ++ [i]) ↔ i = pages.length + 1) ∧
      pag_step PagState.locating (PagObs.seen 1) = PagState.advancing [1] ∧
      (∀ ct, pag_step (PagState.rewinding ct) (PagObs.seen 1) =
        PagState.advancing [1]) ∧
      (∀ (obs : List PagObs) (pages : List Nat),
        pag_run obs = PagState.done pages → pages = List.range' 1 pages.length) := by
  refine ⟨?_, ?_, ?_, ?_⟩
  · intro pages i
    constructor
    · intro h
      by_cases hi : i = pages.length + 1
      · exact hi
      · rw [pag_step, if_neg hi] at h
        have := congrArg (fun s => match s with
          | PagState.advancing l => l.length
          | _ => 0) h
        simp at this
    · intro hi
      rw [pag_step, if_pos hi]
  · rfl
  · intro ct
    rw [pag_step, if_pos rfl]
  · intro obs pages h
    have hinv := pag_run_inv obs
    rw [h] at hinv
    exact hinv

/-- Witness for **C9**: a concrete run — locate page 1, accept pages 2 and 3
(ignoring a stray index 5), then time out — ends in `done [1, 2, 3]`, which
is exactly `1..3`. -/
theorem pagination_accepts_contiguous_indices_witness :
    pag_run [PagObs.seen 1, PagObs.seen 2, PagObs.seen 5, PagObs.seen 3,
        PagObs.timeout] = PagState.done [1, 2, 3] ∧
      [1, 2, 3] = List.range' 1 3 :=
  ⟨by decide,
    pagination_accepts_contiguous_indices.2.2.2
      [PagObs.seen 1, PagObs.seen 2, PagObs.seen 5, PagObs.seen 3, PagObs.timeout]
      [1, 2, 3] (by decide)⟩

/-! ## OCR dispatch engine (`src/ocr_server.rs`) -/

/-- `OcrClient` (src/ocr_server.rs): the id-assigning front end.  `last_id`
is the id the next `send` will use (it is incremented after tagging). -/
structure OcrClient where
  last_id : Nat
deriving DecidableEq, Repr

/-- `OcrClient::send` (src/ocr_server.rs, lines 204-213), the id-assignment
part: the request is tagged with the current `last_id`, which is then
incremented; returns the updated client and the id assigned.  The image
payload and the fresh oneshot channel are routed by the server model
below. -/
def OcrClient.send (c : OcrClient) : OcrClient × Nat :=
  (⟨c.last_id + 1⟩, c.last_id)

/-- The ids assigned by `n` successive `send` calls. -/
def send_ids (c : OcrClient) : Nat → List Nat
  | 0 => []
  | n + 1 => (c.send).2 :: send_ids (c.send).1 n

/-- A message consumed by `OcrServer2::run`'s `select!`: a new request from
the client channel (`(id, img, result_tx)` — the image payload is irrelevant
to routing and elided; the oneshot sender is identified by a slot token), or
a completed result from the worker side (`(id, result)`).  The `select!`
between the two unbounded channels is modelled by quantifying over every
interleaved message sequence. -/
inductive S2Msg (α : Type) where
  | request (id : Nat) (slot : Nat)
  | result (id : Nat) (r : α)
deriving DecidableEq

/-- The bookkeeping of `OcrServer2` plus ghost state: `id_result_txs` is the
pending-response table (the `HashMap<u64, oneshot::Sender>`, as an
association list with the newest binding first), and `deliveries` records
each `result_tx.send(result)` performed, as (id, slot token, result). -/
structure S2State (α : Type) where
  id_result_txs : List (Nat × Nat)
  deliveries : List (Nat × Nat × α)
deriving DecidableEq

/-- One iteration of `OcrServer2::run` (src/ocr_server.rs, lines 180-195): a
request inserts its response slot keyed by its id (`HashMap::insert`,
overwriting any stale binding) and forwards the work; a result removes the
slot registered for its id — `remove(&id).unwrap()` panics, modelled as
`none`, when there is none — and delivers the result to exactly that
slot. -/
def s2_step (s : S2State α) : S2Msg α → Option (S2State α)
  | .request id slot =>
    some ⟨(id, slot) :: s.id_result_txs.eraseP (fun p => p.1 == id), s.deliveries⟩
  | .result id r =>
    match s.id_result_txs.find? (fun p => p.1 == id) with
    | some (_, slot) =>
      some ⟨s.id_result_txs.eraseP (fun p => p.1 == id),
        s.deliveries ++ [(id, slot, r)]⟩
    | none => none

/-- A run of `OcrServer2::run` over an interleaved message sequence, from
the empty pending table; `none` when some iteration panicked. -/
def s2_run {α : Type} (msgs : List (S2Msg α)) : Option (S2State α) :=
  msgs.foldlM s2_step ⟨[], []⟩

/-- The ids of the pending-response table. -/
def pending_ids (s : S2State α) : List Nat := s.id_result_txs.map Prod.fst

/-- The ids that have received a delivery. -/
def delivered_ids (s : S2State α) : List Nat := s.deliveries.map (fun d => d.1)

/-- The ids of the request messages of a sequence. -/
def request_ids : List (S2Msg α) → List Nat
  | [] => []
  | .request id _ :: rest => id :: request_ids rest
  | .result _ _ :: rest => request_ids rest

theorem not_mem_keys_eraseP (l : List (Nat × Nat)) (id : Nat)
    (hnd : (l.map Prod.fst).Nodup) :
    id ∉ (l.eraseP (fun p => p.1 == id)).map Prod.fst := by
  induction l with
  | nil => simp
  | cons p l ih =>
    rw [List.map_cons, List.nodup_cons] at hnd
    by_cases hp : p.1 = id
    · rw [List.eraseP_cons_of_pos (by simp [hp])]
      rw [← hp]
      exact hnd.1
    · rw [List.eraseP_cons_of_neg (by simp [hp])]
      rw [List.map_cons]
      intro hmem
      rcases List.mem_cons.mp hmem with h | h
      · exact hp h.symm
      · exact ih hnd.2 h

theorem s2_go {α : Type} :
    ∀ (msgs : List (S2Msg α)) (s fin : S2State α),
      (request_ids msgs).Nodup →
      (∀ id ∈ request_ids msgs, id ∉ pending_ids s ∧ id ∉ delivered_ids s) →
      (pending_ids s).Nodup →
      (delivered_ids s).Nodup →
      (∀ id ∈ pending_ids s, id ∉ delivered_ids s) →
      List.foldlM s2_step s msgs = some fin →
      (delivered_ids fin).Nodup ∧
        ∀ d ∈ fin.deliveries, d ∈ s.deliveries ∨
          (S2Msg.result d.1 d.2.2 ∈ msgs ∧
            ((d.1, d.2.1) ∈ s.id_result_txs ∨ S2Msg.request d.1 d.2.1 ∈ msgs)) := by
  intro msgs
  induction msgs with
  | nil =>
    intro s fin _ _ _ hd _ hrun
    rw [List.foldlM_nil] at hrun
    cases hrun
    exact ⟨hd, fun d hdmem => Or.inl hdmem⟩
  | cons m rest ih =>
    intro s fin hnodup hfresh hp hd hdisj hrun
    rw [List.foldlM_cons] at hrun
    cases m with
    | request id slot =>
      simp only [s2_step] at hrun
      simp only [Option.bind_eq_bind, Option.some_bind] at hrun
      simp only [request_ids, List.nodup_cons] at hnodup
      have hid_np : id ∉ pending_ids s := (hfresh id (by simp [request_ids])).1
      have hid_nd : id ∉ delivered_ids s := (hfresh id (by simp [request_ids])).2
      have hkeys : List.Sublist
          ((s.id_result_txs.eraseP (fun p => p.1 == id)).map Prod.fst)
          (pending_ids s) := (List.eraseP_sublist s.id_result_txs).map Prod.fst
      have hstep := ih (⟨(id, slot) :: s.id_result_txs.eraseP (fun p => p.1 == id),
          s.deliveries⟩ : S2State α) fin hnodup.2
        (by
          intro x hx
          have hxfact := hfresh x (by simp [request_ids, hx])
          have hxid : x ≠ id := fun hxe => hnodup.1 (hxe ▸ hx)
          refine ⟨?_, hxfact.2⟩
          simp only [pending_ids, List.map_cons, List.mem_cons]
          rintro (h | h)
          · exact hxid h
          · exact hxfact.1 (hkeys.subset h))
        (by
          simp only [pending_ids, List.map_cons, List.nodup_cons]
          exact ⟨fun h => hid_np (hkeys.subset h), hp.sublist hkeys⟩)
        hd
        (by
          intro x hx
          simp only [pending_ids, List.map_cons, List.mem_cons] at hx
          rcases hx with h | h
          · exact h ▸ hid_nd
          · exact hdisj x (hkeys.subset h))
        hrun
      refine ⟨hstep.1, ?_⟩
      intro d hdm
      rcases hstep.2 d hdm with hin | ⟨hres, hor⟩
      · exact Or.inl hin
      · refine Or.inr ⟨List.mem_cons_of_mem _ hres, ?_⟩
        rcases hor with htx | hreq
        · rcases List.mem_cons.mp htx with heq | hmem
          · right
            have h1 : d.1 = id := congrArg Prod.fst heq
            have h2 : d.2.1 = slot := congrArg Prod.snd heq
            rw [h1, h2]
            exact List.mem_cons_self _ _
          · exact Or.inl ((List.eraseP_sublist s.id_result_txs).subset hmem)
        · exact Or.inr (List.mem_cons_of_mem _ hreq)
    | result id r =>
      simp only [s2_step] at hrun
      cases hfind : s.id_result_txs.find? (fun p => p.1 == id) with
      | none =>
        rw [hfind] at hrun
        simp at hrun
      | some entry =>
        obtain ⟨id2, slot⟩ := entry
        have hid2 : id2 = id := by simpa using List.find?_some hfind
        subst id2
        rw [hfind] at hrun
        simp only [Option.bind_eq_bind, Option.some_bind] at hrun
        simp only [request_ids] at hnodup
        have hmem_entry : (id, slot) ∈ s.id_result_txs :=
          List.mem_of_find?_eq_some hfind
        have hid_pend : id ∈ pending_ids s := List.mem_map_of_mem Prod.fst hmem_entry
        have hid_nd : id ∉ delivered_ids s := hdisj id hid_pend
        have hkeys : List.Sublist
            ((s.id_result_txs.eraseP (fun p => p.1 == id)).map Prod.fst)
            (pending_ids s) := (List.eraseP_sublist s.id_result_txs).map Prod.fst
        have hid_nkeys := not_mem_keys_eraseP s.id_result_txs id hp
        have hstep := ih (⟨s.id_result_txs.eraseP (fun p => p.1 == id),
            s.deliveries ++ [(id, slot, r)]⟩ : S2State α) fin hnodup
          (by
            intro x hx
            have hxfact := hfresh x (by simp [request_ids, hx])
            have hxid : x ≠ id := fun hxe => hxfact.1 (hxe ▸ hid_pend)
            refine ⟨fun h => hxfact.1 (hkeys.subset h), ?_⟩
            simp only [delivered_ids, List.map_append, List.map_cons, List.map_nil,
              List.mem_append, List.mem_singleton]
            rintro (h | h)
            · exact hxfact.2 h
            · exact hxid h)
          (hp.sublist hkeys)
          (by
            simp only [delivered_ids, List.map_append, List.map_cons, List.map_nil]
            exact List.nodup_append.mpr ⟨hd, List.nodup_singleton id,
              fun x hx hx1 => hid_nd ((List.mem_singleton.mp hx1) ▸ hx)⟩)
          (by
            intro x hx
            have hx' : x ∈ pending_ids s := hkeys.subset hx
            have hxid : x ≠ id := fun hxe => hid_nkeys (hxe ▸ hx)
            simp only [delivered_ids, List.map_append, List.map_cons, List.map_nil,
              List.mem_append, List.mem_singleton]
            rintro (h | h)
            · exact hdisj x hx' h
            · exact hxid h)
          hrun
        refine ⟨hstep.1, ?_⟩
        intro d hdm
        rcases hstep.2 d hdm with hin | ⟨hres, hor⟩
        · rcases List.mem_append.mp hin with hold | hnew
          · exact Or.inl hold
          · have hdeq : d = (id, slot, r) := List.mem_singleton.mp hnew
            refine Or.inr ⟨?_, Or.inl ?_⟩
            · rw [hdeq]
              exact List.mem_cons_self _ _
            · rw [hdeq]
              exact hmem_entry
        · refine Or.inr ⟨List.mem_cons_of_mem _ hres, ?_⟩
          rcases hor with htx | hreq
          · exact Or.inl ((List.eraseP_sublist s.id_result_txs).subset htx)
          · exact Or.inr (List.mem_cons_of_mem _ hreq)

/-- **C2.** Id assignment and exactly-once routing.  Each `OcrClient::send`
assigns the current `last_id` and increments it, so the ids of any run of
sends form `last_id, last_id+1, …` — strictly increasing, each id strictly
greater than every id assigned before it.  For the dispatch loop of
`OcrServer2::run`, over every interleaving of request and completed-result
messages in which request ids are distinct (as the client guarantees): if
the run never panics, then no id receives two deliveries, and every delivery
(id, slot, result) pairs a result computed for that id with the slot
registered by that same id's request — never a response meant for a
different id.  A result for an id with no pending slot panics
(`remove(&id).unwrap()`) rather than delivering, and the slot is removed on
delivery, so duplicate or stale routing is impossible regardless of how
worker handles are reused upstream. -/
theorem ocr_ids_increase_and_exactly_once_delivery :
    (∀ (c : OcrClient) (n : Nat),
        send_ids c n = List.range' c.last_id n ∧
          (send_ids c n).Pairwise (· < ·)) ∧
      ∀ (α : Type) (msgs : List (S2Msg α)) (fin : S2State α),
        (request_ids msgs).Nodup →
        s2_run msgs = some fin →
        (delivered_ids fin).Nodup ∧
          ∀ d ∈ fin.deliveries,
            S2Msg.result d.1 d.2.2 ∈ msgs ∧ S2Msg.request d.1 d.2.1 ∈ msgs := by
  constructor
  · intro c n
    have heq : send_ids c n = List.range' c.last_id n := by
      induction n generalizing c with
      | zero => rfl
      | succ n ih => simp [send_ids, OcrClient.send, ih, List.range'_succ]
    exact ⟨heq, heq ▸ List.pairwise_lt_range' c.last_id n⟩
  · intro α msgs fin hnodup hrun
    have h := s2_go msgs ⟨[], []⟩ fin hnodup
      (fun x _ => ⟨by simp [pending_ids], by simp [delivered_ids]⟩)
      (by simp [pending_ids]) (by simp [delivered_ids])
      (by intro x hx; simp [pending_ids] at hx)
      hrun
    refine ⟨h.1, ?_⟩
    intro d hdm
    rcases h.2 d hdm with hin | ⟨hres, hor⟩
    · simp at hin
    · rcases hor with htx | hreq
      · simp at htx
      · exact ⟨hres, hreq⟩

/-- Witness for **C2**: three sends from a fresh client assign 0, 1, 2 in
strictly increasing order, and a concrete request/result trace delivers the
one result to the one registered slot. -/
theorem ocr_ids_increase_and_exactly_once_delivery_witness :
    (send_ids ⟨0⟩ 3 = List.range' 0 3 ∧ (send_ids ⟨0⟩ 3).Pairwise (· < ·)) ∧
      ((delivered_ids (⟨[], [(0, 100, "a")]⟩ : S2State String)).Nodup ∧
        ∀ d ∈ (⟨[], [(0, 100, "a")]⟩ : S2State String).deliveries,
          S2Msg.result d.1 d.2.2 ∈
              [(S2Msg.request 0 100 : S2Msg String), S2Msg.result 0 "a"] ∧
            S2Msg.request d.1 d.2.1 ∈
              [(S2Msg.request 0 100 : S2Msg String), S2Msg.result 0 "a"]) :=
  ⟨ocr_ids_increase_and_exactly_once_delivery.1 ⟨0⟩ 3,
    ocr_ids_increase_and_exactly_once_delivery.2 String
      [(S2Msg.request 0 100 : S2Msg String), S2Msg.result 0 "a"]
      ⟨[], [(0, 100, "a")]⟩ (by decide) (by rfl)⟩

end Snowbreak
